import Mathlib

/-!
Verification of the cosmo node-coordinate store, geometry synthesis, schema
construction and node-cache mode selection, as a shallow embedding of the
Rust sources (`src/storage/mod.rs`, `src/pipeline/mod.rs`, `src/app/mod.rs`,
`src/config/mod.rs`, `src/sinks/geoparquet.rs`).

Modelling conventions:
* `u64` values (node ids, counts, sizes) are `Nat`; the sparse writer's
  `count.saturating_add(1)` cannot saturate for any trace considered here, so
  it is plain `Nat` addition.
* `i32`/`i64` values are `Int` with the wrap/saturate steps written out
  explicitly (`Int.emod` by `2^32`, saturation at the `i32` bounds).
* `f64` coordinate values are modelled as exact rationals `ℚ`; the scaling
  multiplication and the unscaling division are exact in the model.
* File I/O always succeeds in the model; the temporary file backing the
  sparse writer is the list of 16-byte entries in write order, and the dense
  mmap is a byte-indexed function (zero-initialised, as `set_len` guarantees).
* A Rust `panic!` (out-of-bounds slice access) is modelled as an explicit
  `GetOutcome.panicked` result in the sparse reader, whose index arithmetic
  is the only unguarded access in the sources.
-/

/-- Bytes per dense slot: 4 bytes lon (i32), 4 bytes lat (i32). -/
def NODE_SIZE : Nat := 8

/-- Bytes per sparse entry: 8 bytes node id (u64), 8 bytes packed coords (i64). -/
def SPARSE_ENTRY_SIZE : Nat := 16

/-- Fixed-precision scale: degrees × 10⁷. -/
def SCALE_FACTOR : ℚ := 10000000

def I32_MIN : Int := -(2 ^ 31)

def I32_MAX : Int := 2 ^ 31 - 1

/-- Truncation toward zero, the rounding used by Rust float-to-int casts. -/
def ratTrunc (q : ℚ) : Int := if 0 ≤ q then ⌊q⌋ else ⌈q⌉

/-- Rust `as i32` applied to an `f64`: truncate toward zero, then saturate at
the `i32` bounds. (`NaN → 0` has no counterpart in the `ℚ` model.) -/
def f64AsI32 (q : ℚ) : Int :=
  let t := ratTrunc q
  if t < I32_MIN then I32_MIN else if I32_MAX < t then I32_MAX else t

/-- The expression `(deg * SCALE_FACTOR) as i32` that all three backends use
to produce a fixed-point coordinate. -/
def toFixed (deg : ℚ) : Int := f64AsI32 (deg * SCALE_FACTOR)

/-- Reinterpret the low 32 bits of an integer as a signed `i32`
(Rust `as i32` on an integer argument). -/
def toI32wrap (x : Int) : Int :=
  if x % 2 ^ 32 < 2 ^ 31 then x % 2 ^ 32 else x % 2 ^ 32 - 2 ^ 32

/-- Unscaling `fixed as f64 / SCALE_FACTOR` (exact division in the model). -/
def unscale (fixed : Int) : ℚ := (fixed : ℚ) / SCALE_FACTOR

/-- Pack lat/lon into a single i64 for sparse storage:
`((lon_fixed as i64) << 32) | ((lat_fixed as i64) & 0xFFFFFFFF)`.
The shift cannot overflow (`|lon_fixed| < 2^31`), the masked low word is
`lat_fixed mod 2^32 ∈ [0, 2^32)`, and the bitwise or of disjoint bit ranges
is addition. -/
def pack_coords (lat lon : ℚ) : Int :=
  let lat_fixed := toFixed lat
  let lon_fixed := toFixed lon
  lon_fixed * 2 ^ 32 + lat_fixed % 2 ^ 32

/-- Unpack an i64 back to `(lon, lat)`:
`((packed >> 32) as i32, packed as i32)`, each unscaled. The arithmetic
right shift of an `i64` by 32 is floor division by `2^32`, which for a
positive divisor is `Int.ediv`. -/
def unpack_coords (packed : Int) : ℚ × ℚ :=
  let lon_fixed := toI32wrap ((packed / 2 ^ 32))
  let lat_fixed := toI32wrap packed
  (unscale lon_fixed, unscale lat_fixed)

/-- One `put(id, lat, lon)` call as received by a node store writer
(the Rust signature is `put(&mut self, id: u64, lat: f64, lon: f64)`). -/
structure PutCall where
  id : Nat
  lat : ℚ
  lon : ℚ

/-- Little-endian byte `k` of the 32-bit two's-complement image of `x`
(`to_le_bytes` of an `i32`). -/
def leByte (x : Int) (k : Nat) : Nat :=
  (x % 2 ^ 32).toNat / 256 ^ k % 256

/-- Recompose a `u32` from four little-endian bytes (`from_le_bytes`). -/
def fromLeBytes (b0 b1 b2 b3 : Nat) : Nat :=
  b0 + 256 * b1 + 65536 * b2 + 16777216 * b3

/-- Reinterpret a `u32` bit pattern as a signed `i32`. -/
def u32AsI32 (n : Nat) : Int :=
  if n < 2 ^ 31 then (n : Int) else (n : Int) - 2 ^ 32

/-- Result of a node store `get`: `found` models `Some`, `notFound` models
`None`, and `panicked` models an out-of-bounds slice panic. -/
inductive GetOutcome where
  | found (lon lat : ℚ)
  | notFound
  | panicked
deriving DecidableEq, Repr

/-! ### Memory backend (`MemoryNodeStore`) -/

/-- In-memory backend: `HashMap<u64, (i32, i32)>` storing
`(lon_fixed, lat_fixed)`, modelled as a partial map. -/
structure MemoryNodeStore where
  nodes : Nat → Option (Int × Int)

def MemoryNodeStore.new : MemoryNodeStore := ⟨fun _ => none⟩

/-- `put` scales both axes and inserts (overwriting). It always succeeds. -/
def MemoryNodeStore.put (s : MemoryNodeStore) (id : Nat) (lat lon : ℚ) :
    MemoryNodeStore × Bool :=
  let lat_fixed := toFixed lat
  let lon_fixed := toFixed lon
  (⟨fun n => if n = id then some (lon_fixed, lat_fixed) else s.nodes n⟩, true)

/-- `get` looks up and unscales, returning `(lon, lat)`. -/
def MemoryNodeStore.get (s : MemoryNodeStore) (id : Nat) : Option (ℚ × ℚ) :=
  (s.nodes id).map fun p => (unscale p.1, unscale p.2)

/-! ### Dense backend (`DenseNodeStoreWriter` / `DenseNodeStoreReader`) -/

/-- Dense writer: a zero-initialised memory-mapped file of
`max_nodes * NODE_SIZE` bytes, modelled byte by byte. -/
structure DenseNodeStoreWriter where
  maxNodes : Nat
  mmap : Nat → Nat

/-- `new_dense` / `new_dense_temp`: the file is extended to
`max_nodes * 8` bytes and reads as zeros. -/
def DenseNodeStoreWriter.new (maxNodes : Nat) : DenseNodeStoreWriter :=
  ⟨maxNodes, fun _ => 0⟩

/-- Dense `put`: fails iff `id ≥ max_nodes`; otherwise writes
`lon_fixed.to_le_bytes()` at offset `id*8` and `lat_fixed.to_le_bytes()` at
offset `id*8+4`. -/
def DenseNodeStoreWriter.put (s : DenseNodeStoreWriter) (id : Nat) (lat lon : ℚ) :
    DenseNodeStoreWriter × Bool :=
  if s.maxNodes ≤ id then (s, false)
  else
    let lat_fixed := toFixed lat
    let lon_fixed := toFixed lon
    let off := id * NODE_SIZE
    (⟨s.maxNodes, fun b =>
      if off ≤ b ∧ b < off + 4 then leByte lon_fixed (b - off)
      else if off + 4 ≤ b ∧ b < off + 8 then leByte lat_fixed (b - (off + 4))
      else s.mmap b⟩, true)

structure DenseNodeStoreReader where
  maxNodes : Nat
  mmap : Nat → Nat

/-- Dense `finalize`: remap read-only (contents and capacity unchanged). -/
def DenseNodeStoreWriter.finalize (s : DenseNodeStoreWriter) : DenseNodeStoreReader :=
  ⟨s.maxNodes, s.mmap⟩

/-- `decode_coords`: parse 8 little-endian bytes into `(lon, lat)`. -/
def decode_coords (b0 b1 b2 b3 b4 b5 b6 b7 : Nat) : ℚ × ℚ :=
  let lon_fixed := u32AsI32 (fromLeBytes b0 b1 b2 b3)
  let lat_fixed := u32AsI32 (fromLeBytes b4 b5 b6 b7)
  (unscale lon_fixed, unscale lat_fixed)

/-- Dense `get`: `None` iff `id ≥ max_nodes`, else decode the slot at
offset `id*8`. -/
def DenseNodeStoreReader.get (s : DenseNodeStoreReader) (id : Nat) : Option (ℚ × ℚ) :=
  if s.maxNodes ≤ id then none
  else
    let off := id * NODE_SIZE
    some (decode_coords (s.mmap off) (s.mmap (off + 1)) (s.mmap (off + 2))
      (s.mmap (off + 3)) (s.mmap (off + 4)) (s.mmap (off + 5)) (s.mmap (off + 6))
      (s.mmap (off + 7)))

/-! ### Sparse backend (`SparseNodeStoreWriter` / `SparseNodeStoreReader`) -/

/-- One 16-byte record of the sparse cache file. -/
structure SparseEntry where
  id : Nat
  packed : Int
deriving DecidableEq, Repr

structure SparseNodeStoreWriter where
  entries : List SparseEntry
  count : Nat
  lastId : Option Nat
  isSorted : Bool

def SparseNodeStoreWriter.new : SparseNodeStoreWriter :=
  ⟨[], 0, none, true⟩

/-- Sparse `put`: if the id regresses, mark the writer unsorted and fail
without writing; otherwise record the id, bump the count and append the
entry. -/
def SparseNodeStoreWriter.put (s : SparseNodeStoreWriter) (id : Nat) (lat lon : ℚ) :
    SparseNodeStoreWriter × Bool :=
  let packed := pack_coords lat lon
  match s.lastId with
  | some last =>
    if id < last then ({ s with isSorted := false }, false)
    else (⟨s.entries ++ [⟨id, packed⟩], s.count + 1, some id, s.isSorted⟩, true)
  | none => (⟨s.entries ++ [⟨id, packed⟩], s.count + 1, some id, s.isSorted⟩, true)

structure SparseNodeStoreReader where
  entries : List SparseEntry
  count : Nat

/-- Sparse `finalize`: fails (`none`) if the writer saw out-of-order ids;
otherwise checks that the file holds exactly `count` aligned entries and maps
it. In the model the file is exactly the written entry list. -/
def SparseNodeStoreWriter.finalize (s : SparseNodeStoreWriter) :
    Option SparseNodeStoreReader :=
  if s.isSorted = false then none
  else if s.entries.length ≠ s.count then none
  else some ⟨s.entries, s.count⟩

/-- The binary-search loop of sparse `get`. `fuel` is the loop variant
`high - low`, made explicit so the recursion is structural; every call keeps
`fuel ≥ high - low`, under which the `fuel = 0` branch coincides with the
loop exit `low ≥ high`. An out-of-range entry index models the slice panic. -/
def sparseGetGo (entries : List SparseEntry) (id : Nat) :
    Nat → Nat → Nat → GetOutcome
  | 0, _, _ => .notFound
  | fuel + 1, low, high =>
    if low < high then
      let mid := low + (high - low) / 2
      match entries[mid]? with
      | none => .panicked
      | some e =>
        if e.id < id then sparseGetGo entries id fuel (mid + 1) high
        else if id < e.id then sparseGetGo entries id fuel low mid
        else .found (unpack_coords e.packed).1 (unpack_coords e.packed).2
    else .notFound

/-- Sparse `get`: binary search over the mapped entry array with
`low = 0`, `high = count`. -/
def SparseNodeStoreReader.get (s : SparseNodeStoreReader) (id : Nat) : GetOutcome :=
  sparseGetGo s.entries id s.count 0 s.count

/-! ### Traces: running a list of `put` calls against each backend -/

def runMemoryPuts (calls : List PutCall) : MemoryNodeStore :=
  calls.foldl (fun s c => (s.put c.id c.lat c.lon).1) MemoryNodeStore.new

def runDensePuts (maxNodes : Nat) (calls : List PutCall) : DenseNodeStoreWriter :=
  calls.foldl (fun s c => (s.put c.id c.lat c.lon).1) (DenseNodeStoreWriter.new maxNodes)

def runSparsePuts (calls : List PutCall) : SparseNodeStoreWriter :=
  calls.foldl (fun s c => (s.put c.id c.lat c.lon).1) SparseNodeStoreWriter.new

/-! ### Node-cache mode selection (`src/app/mod.rs`, `src/config/mod.rs`) -/

inductive NodeCacheMode where
  | Auto
  | Sparse
  | Dense
  | Memory
deriving DecidableEq, Repr

/-- `DENSE_THRESHOLD_BYTES = 5 * 1024 * 1024 * 1024`. -/
def DENSE_THRESHOLD_BYTES : Nat := 5 * 1024 * 1024 * 1024

/-- `resolve_node_cache_mode`: `Auto` inspects the input file size
(`fileSize` models `std::fs::metadata(path).map(|m| m.len()).unwrap_or(0)`);
any explicit mode is returned unchanged. -/
def resolve_node_cache_mode (requested : NodeCacheMode) (fileSize : Nat) :
    NodeCacheMode :=
  match requested with
  | .Auto => if DENSE_THRESHOLD_BYTES ≤ fileSize then .Dense else .Sparse
  | r => r

/-! ### GeoParquet schema (`src/app/mod.rs::collect_columns`,
`src/sinks/geoparquet.rs::GeoParquetSink::new`) -/

inductive ColumnType where
  | string
  | integer
  | float
  | json
deriving DecidableEq, Repr

structure ColumnSpec where
  name : String
  col_type : ColumnType
deriving DecidableEq, Repr

/-- `collect_columns`: project the compiled table columns to `ColumnSpec`s
and sort them by name (`columns.sort_by(|a, b| a.name.cmp(&b.name))`; Rust's
`sort_by` is a stable sort, modelled by `mergeSort`). -/
def collect_columns (declared : List ColumnSpec) : List ColumnSpec :=
  declared.mergeSort fun a b => a.name ≤ b.name

inductive ArrowDataType where
  | binary
  | utf8
  | int64
  | float64
deriving DecidableEq, Repr

/-- An Arrow schema field: name, data type, nullability. -/
structure ArrowField where
  name : String
  dataType : ArrowDataType
  nullable : Bool
deriving DecidableEq, Repr

/-- Arrow data type of a declared column (`GeoParquetSink::new` match). -/
def columnDataType : ColumnType → ArrowDataType
  | .string => .utf8
  | .integer => .int64
  | .float => .float64
  | .json => .utf8

/-- The field list built by `GeoParquetSink::new` from the column list it is
given: `geometry` (Binary, non-nullable), one nullable field per column, then
`properties` (Utf8, non-nullable). -/
def geoParquetSchemaFields (columns : List ColumnSpec) : List ArrowField :=
  ⟨"geometry", .binary, false⟩ ::
    ((columns.map fun c => ⟨c.name, columnDataType c.col_type, true⟩) ++
      [⟨"properties", .utf8, false⟩])

/-- The schema the application produces for a declared column list:
`init_sink` passes `collect_columns(config)` to `GeoParquetSink::new`. -/
def geoParquetSchemaOf (declared : List ColumnSpec) : List ArrowField :=
  geoParquetSchemaFields (collect_columns declared)

/-! ### Way geometry synthesis (`src/pipeline/mod.rs::build_way_geometry`,
`src/config/mod.rs` geometry configuration) -/

inductive WayGeometryMode where
  | Linestring
  | Polygon
  | Centroid
deriving DecidableEq, Repr

inductive ClosedWayMode where
  | Polygon
  | Centroid
  | Linestring
deriving DecidableEq, Repr

inductive WaySetting where
  | Enabled (mode : WayGeometryMode)
  | Disabled (value : Bool)
deriving DecidableEq, Repr

/-- `WaySetting::mode`: `Disabled` defaults to `Linestring`. -/
def WaySetting.mode : WaySetting → WayGeometryMode
  | .Enabled m => m
  | .Disabled _ => .Linestring

structure GeometryConfig where
  way : WaySetting
  closed_way : ClosedWayMode
  node : Bool
  relation : Bool

/-- Geometries produced for ways (`geo_types`): coordinates are `(x, y)` =
`(lon, lat)` pairs. -/
inductive Geometry where
  | point (p : ℚ × ℚ)
  | lineString (coords : List (ℚ × ℚ))
  | polygon (exterior : List (ℚ × ℚ))
deriving DecidableEq, Repr

inductive GeometryKind where
  | point
  | lineString
  | polygon
deriving DecidableEq, Repr

def Geometry.kind : Geometry → GeometryKind
  | .point _ => .point
  | .lineString _ => .lineString
  | .polygon _ => .polygon

/-- `LineString::is_closed` (geo crate): the first and last coordinates are
equal. -/
def isClosed (coords : List (ℚ × ℚ)) : Bool :=
  coords.head? = coords.getLast?

/-- Modelled from the geo crate (an external dependency, not repository
code): `Polygon::centroid` returns `None` only for an empty polygon. Its
numeric value is irrelevant to the claims below, which inspect only the
geometry kind; the model returns the vertex average. -/
def polygonCentroid (exterior : List (ℚ × ℚ)) : Option (ℚ × ℚ) :=
  match exterior with
  | [] => none
  | ps =>
    let s := ps.foldl (fun acc q => (acc.1 + q.1, acc.2 + q.2)) ((0 : ℚ), (0 : ℚ))
    some (s.1 / ps.length, s.2 / ps.length)

/-- `build_way_geometry`: a closed sequence is governed by `closed_way`,
an open one by `way.mode()`; `Centroid` falls back to the first coordinate
when the centroid is undefined (`coords[0]`; the caller guarantees at least
two coordinates, so `headI`'s default is never used on the caller's path). -/
def build_way_geometry (cfg : GeometryConfig) (coords : List (ℚ × ℚ)) :
    Geometry :=
  if isClosed coords then
    match cfg.closed_way with
    | .Polygon => .polygon coords
    | .Centroid => .point ((polygonCentroid coords).getD coords.headI)
    | .Linestring => .lineString coords
  else
    match cfg.way.mode with
    | .Linestring => .lineString coords
    | .Polygon => .polygon coords
    | .Centroid => .point ((polygonCentroid coords).getD coords.headI)

/-- Geometry kind chosen for a closed way under each `closed_way` mode. -/
def closedWayKind : ClosedWayMode → GeometryKind
  | .Polygon => .polygon
  | .Centroid => .point
  | .Linestring => .lineString

/-- Geometry kind chosen for an open way under each `way` mode. -/
def wayModeKind : WayGeometryMode → GeometryKind
  | .Linestring => .lineString
  | .Polygon => .polygon
  | .Centroid => .point

/-! ### Helper predicates used in claim statements -/

/-- The scaled value `q * SCALE_FACTOR` truncates into `i32` range, i.e. the
fixed-point cast does not saturate. This holds for every coordinate in the
±180° range the format is designed for. -/
def fitsI32 (q : ℚ) : Prop :=
  I32_MIN ≤ ratTrunc (q * SCALE_FACTOR) ∧ ratTrunc (q * SCALE_FACTOR) ≤ I32_MAX

/-- The last `put` call in `calls` whose id is `id`, if any. -/
def lastCallFor (calls : List PutCall) (id : Nat) : Option PutCall :=
  (calls.filter fun c => c.id = id).getLast?

/-- Byte `k` (0 ≤ k < 8) of the dense slot written for a call: bytes 0–3 are
the little-endian fixed longitude, bytes 4–7 the little-endian fixed
latitude. -/
def denseSlotByte (c : PutCall) (k : Nat) : Nat :=
  if k < 4 then leByte (toFixed c.lon) k else leByte (toFixed c.lat) (k - 4)

/-! ## Theorems -/

/-! ### C8 — node-cache mode resolution -/

/-- C8: when the requested node-cache mode is `Auto`, the resolved mode is
`Dense` iff the input file size is at least 5 GiB (`5 * 2^30` bytes) and
`Sparse` otherwise; any explicitly requested mode resolves to itself. -/
theorem C8_resolve_node_cache_mode :
    (∀ size : Nat, resolve_node_cache_mode .Auto size =
      (if 5 * 2 ^ 30 ≤ size then .Dense else .Sparse)) ∧
    (∀ size, resolve_node_cache_mode .Sparse size = .Sparse) ∧
    (∀ size, resolve_node_cache_mode .Dense size = .Dense) ∧
    (∀ size, resolve_node_cache_mode .Memory size = .Memory) := by
  refine ⟨fun size => ?_, fun _ => rfl, fun _ => rfl, fun _ => rfl⟩
  have h : DENSE_THRESHOLD_BYTES = 5 * 2 ^ 30 := by norm_num [DENSE_THRESHOLD_BYTES]
  simp only [resolve_node_cache_mode, h]

/-! ### C7 — way geometry kind -/

/-- C7: for a way with at least two resolved coordinates, the kind of the
geometry emitted by `build_way_geometry` depends only on the geometry
configuration: `closed_way` governs a closed ring, `way.mode()` an open
sequence; `closed_way = Centroid` on a ring always produces a `Point`. -/
theorem C7_way_geometry_kind (cfg : GeometryConfig) (coords : List (ℚ × ℚ))
    (h : 2 ≤ coords.length) :
    ((build_way_geometry cfg coords).kind =
      if isClosed coords then closedWayKind cfg.closed_way
      else wayModeKind cfg.way.mode) ∧
    (isClosed coords = true → cfg.closed_way = .Centroid →
      (build_way_geometry cfg coords).kind = .point) := by
  constructor
  · by_cases hc : isClosed coords
    · cases hcw : cfg.closed_way <;>
        simp [build_way_geometry, hc, closedWayKind, Geometry.kind, hcw]
    · cases hm : cfg.way.mode <;>
        simp [build_way_geometry, hc, wayModeKind, Geometry.kind, hm]
  · intro hc hcw
    simp [build_way_geometry, hc, hcw, Geometry.kind]

/-- Witness for C7: a concrete triangle ring with `closed_way = Centroid`
yields a `Point`. -/
theorem C7_way_geometry_kind_witness :
    2 ≤ ([((0:ℚ),(0:ℚ)), (1,0), (0,0)] : List (ℚ × ℚ)).length ∧
    (build_way_geometry ⟨.Enabled .Linestring, .Centroid, true, true⟩
      [((0:ℚ),(0:ℚ)), (1,0), (0,0)]).kind = .point := by
  refine ⟨by simp, ?_⟩
  exact (C7_way_geometry_kind ⟨.Enabled .Linestring, .Centroid, true, true⟩ _
    (by simp)).2 (by norm_num [isClosed]) rfl

/-! ### C4 — GeoParquet schema layout -/

/-- C4 counterexample: for declared columns `[b, a]` the schema places `a`
before `b` (sorted by name), not in the user's declaration order as the
claim states. -/
theorem C4_counterexample :
    geoParquetSchemaOf [⟨"b", .string⟩, ⟨"a", .integer⟩] =
      [⟨"geometry", .binary, false⟩, ⟨"a", .int64, true⟩, ⟨"b", .utf8, true⟩,
        ⟨"properties", .utf8, false⟩] ∧
    geoParquetSchemaOf [⟨"b", .string⟩, ⟨"a", .integer⟩] ≠
      [⟨"geometry", .binary, false⟩, ⟨"b", .utf8, true⟩, ⟨"a", .int64, true⟩,
        ⟨"properties", .utf8, false⟩] := by
  have h : collect_columns [⟨"b", .string⟩, ⟨"a", .integer⟩] =
      [⟨"a", ColumnType.integer⟩, ⟨"b", ColumnType.string⟩] := by
    simp [collect_columns, List.mergeSort]
    simp [List.merge]
    decide
  refine ⟨?_, ?_⟩
  · simp [geoParquetSchemaOf, geoParquetSchemaFields, h, columnDataType]
  · simp [geoParquetSchemaOf, geoParquetSchemaFields, h, columnDataType]

/-- C4 amended: the first schema field is `geometry` (Binary, non-nullable),
the last is `properties` (Utf8, non-nullable), and between them the declared
columns appear sorted by column name (a stable sort of the user's list, so a
permutation of it), each nullable. -/
theorem C4_schema_layout (declared : List ColumnSpec) :
    (geoParquetSchemaOf declared).head? = some ⟨"geometry", .binary, false⟩ ∧
    (geoParquetSchemaOf declared).getLast? = some ⟨"properties", .utf8, false⟩ ∧
    ((geoParquetSchemaOf declared).drop 1).dropLast =
      (collect_columns declared).map
        (fun c => ⟨c.name, columnDataType c.col_type, true⟩) ∧
    (∀ f ∈ ((geoParquetSchemaOf declared).drop 1).dropLast,
      f.nullable = true) ∧
    List.Pairwise (fun a b : ColumnSpec => a.name ≤ b.name)
      (collect_columns declared) ∧
    (collect_columns declared).Perm declared := by
  refine ⟨rfl, ?_, ?_, ?_, ?_, ?_⟩
  · simp only [geoParquetSchemaOf, geoParquetSchemaFields, ← List.cons_append,
      List.getLast?_concat]
  · simp only [geoParquetSchemaOf, geoParquetSchemaFields, List.drop_one,
      List.tail_cons, List.dropLast_concat]
  · intro f hf
    simp only [geoParquetSchemaOf, geoParquetSchemaFields, List.drop_one,
      List.tail_cons, List.dropLast_concat] at hf
    obtain ⟨c, _, rfl⟩ := List.mem_map.mp hf
    rfl
  · have h := @List.sorted_mergeSort ColumnSpec
      (fun a b : ColumnSpec => decide (a.name ≤ b.name))
      (fun a b c hab hbc => by
        simp only [decide_eq_true_eq] at *
        exact le_trans hab hbc)
      (fun a b => by
        simp only [Bool.or_eq_true, decide_eq_true_eq]
        exact le_total a.name b.name)
      declared
    exact h.imp (by simp)
  · exact List.mergeSort_perm declared _

/-! ### Fixed-point numeric lemmas -/

theorem ratTrunc_intCast (n : ℤ) : ratTrunc ((n : ℚ)) = n := by
  unfold ratTrunc
  split <;> simp

theorem abs_sub_ratTrunc_lt_one (q : ℚ) : |q - (ratTrunc q : ℚ)| < 1 := by
  unfold ratTrunc
  rw [abs_sub_lt_iff]
  split
  · constructor
    · have := Int.lt_floor_add_one q
      push_cast at this ⊢
      linarith
    · have := Int.floor_le q
      linarith
  · constructor
    · have := Int.le_ceil q
      linarith
    · have := Int.ceil_lt_add_one q
      push_cast at this ⊢
      linarith

theorem toFixed_range (q : ℚ) : I32_MIN ≤ toFixed q ∧ toFixed q ≤ I32_MAX := by
  have h : toFixed q =
      if ratTrunc (q * SCALE_FACTOR) < I32_MIN then I32_MIN
      else if I32_MAX < ratTrunc (q * SCALE_FACTOR) then I32_MAX
      else ratTrunc (q * SCALE_FACTOR) := rfl
  rw [h]
  simp only [I32_MIN, I32_MAX]
  split
  · omega
  · split <;> omega

theorem toFixed_of_fits (q : ℚ) (h : fitsI32 q) :
    toFixed q = ratTrunc (q * SCALE_FACTOR) := by
  obtain ⟨h1, h2⟩ := h
  unfold toFixed f64AsI32
  rw [if_neg (by omega), if_neg (by omega)]

theorem toFixed_eq_of_scaled_int (q : ℚ) (n : ℤ) (hq : q * SCALE_FACTOR = (n : ℚ))
    (h1 : I32_MIN ≤ n) (h2 : n ≤ I32_MAX) : toFixed q = n := by
  have ht : ratTrunc (q * SCALE_FACTOR) = n := by rw [hq, ratTrunc_intCast]
  unfold toFixed f64AsI32
  rw [ht, if_neg (by omega), if_neg (by omega)]

theorem fitsI32_of_scaled_int (q : ℚ) (n : ℤ) (hq : q * SCALE_FACTOR = (n : ℚ))
    (h1 : I32_MIN ≤ n) (h2 : n ≤ I32_MAX) : fitsI32 q := by
  have ht : ratTrunc (q * SCALE_FACTOR) = n := by rw [hq, ratTrunc_intCast]
  exact ⟨by omega, by omega⟩

theorem toFixed_sat_max (q : ℚ) (n : ℤ) (hq : q * SCALE_FACTOR = (n : ℚ))
    (h : I32_MAX < n) : toFixed q = I32_MAX := by
  have ht : ratTrunc (q * SCALE_FACTOR) = n := by rw [hq, ratTrunc_intCast]
  unfold toFixed f64AsI32
  rw [ht, if_neg (by unfold I32_MIN I32_MAX at *; omega), if_pos h]

theorem toFixed_sat_min (q : ℚ) (n : ℤ) (hq : q * SCALE_FACTOR = (n : ℚ))
    (h : n < I32_MIN) : toFixed q = I32_MIN := by
  have ht : ratTrunc (q * SCALE_FACTOR) = n := by rw [hq, ratTrunc_intCast]
  unfold toFixed f64AsI32
  rw [ht, if_pos h]

theorem unscale_toFixed_close (q : ℚ) (h : fitsI32 q) :
    |q - unscale (toFixed q)| < 1 / 10000000 := by
  rw [toFixed_of_fits q h, unscale]
  have hb : |q * SCALE_FACTOR - (ratTrunc (q * SCALE_FACTOR) : ℚ)| < 1 :=
    abs_sub_ratTrunc_lt_one _
  have hSpos : (0:ℚ) < SCALE_FACTOR := by norm_num [SCALE_FACTOR]
  have hrw : q - (ratTrunc (q * SCALE_FACTOR) : ℚ) / SCALE_FACTOR =
      (q * SCALE_FACTOR - (ratTrunc (q * SCALE_FACTOR) : ℚ)) / SCALE_FACTOR := by
    field_simp
  rw [hrw, abs_div, abs_of_pos hSpos]
  have hS : SCALE_FACTOR = (10000000 : ℚ) := rfl
  rw [hS] at hb ⊢
  rw [div_lt_div_iff₀ (by norm_num) (by norm_num)]
  linarith

theorem u32AsI32_leBytes (x : ℤ) (h1 : I32_MIN ≤ x) (h2 : x ≤ I32_MAX) :
    u32AsI32 (fromLeBytes (leByte x 0) (leByte x 1) (leByte x 2) (leByte x 3)) = x := by
  simp only [I32_MIN] at h1
  simp only [I32_MAX] at h2
  have h0 : 0 ≤ x % 2^32 := Int.emod_nonneg x (by norm_num)
  have hlt : x % 2^32 < 2^32 := Int.emod_lt_of_pos x (by norm_num)
  have hx : ((x % 2^32).toNat : ℤ) = x % 2^32 := Int.toNat_of_nonneg h0
  simp only [leByte, fromLeBytes, u32AsI32]
  norm_num
  split <;> omega

theorem unpack_pack (lat lon : ℚ) :
    unpack_coords (pack_coords lat lon) =
      (unscale (toFixed lon), unscale (toFixed lat)) := by
  obtain ⟨ha1, ha2⟩ := toFixed_range lat
  obtain ⟨hb1, hb2⟩ := toFixed_range lon
  simp only [I32_MIN] at ha1 hb1
  simp only [I32_MAX] at ha2 hb2
  have hlon : toI32wrap ((toFixed lon * 2^32 + toFixed lat % 2^32) / 2^32) =
      toFixed lon := by
    unfold toI32wrap
    split <;> omega
  have hlat : toI32wrap (toFixed lon * 2^32 + toFixed lat % 2^32) =
      toFixed lat := by
    unfold toI32wrap
    split <;> omega
  simp only [pack_coords, unpack_coords]
  rw [hlon, hlat]

theorem unscale_zero : unscale 0 = 0 := by
  norm_num [unscale]

/-! ### Trace lemmas: memory and dense backends -/

theorem lastCallFor_cons (c : PutCall) (cs : List PutCall) (id : Nat) :
    lastCallFor (c :: cs) id =
      match lastCallFor cs id with
      | some d => some d
      | none => if c.id = id then some c else none := by
  unfold lastCallFor
  rw [List.filter_cons]
  cases h : List.filter (fun x => decide (x.id = id)) cs with
  | nil =>
    by_cases hc : c.id = id <;> simp [hc, h]
  | cons y ys =>
    obtain ⟨z, hz⟩ := Option.isSome_iff_exists.mp
      (List.getLast?_isSome.mpr (List.cons_ne_nil y ys))
    by_cases hc : c.id = id <;>
      simp [hc, h, hz, List.getLast?_cons_cons]

theorem memory_fold_nodes (calls : List PutCall) (s : MemoryNodeStore) (id : Nat) :
    (calls.foldl (fun s c => (s.put c.id c.lat c.lon).1) s).nodes id =
      match lastCallFor calls id with
      | some c => some (toFixed c.lon, toFixed c.lat)
      | none => s.nodes id := by
  induction calls generalizing s with
  | nil => rfl
  | cons c cs ih =>
    rw [List.foldl_cons, ih, lastCallFor_cons]
    cases h : lastCallFor cs id with
    | some d => rfl
    | none =>
      by_cases hc : c.id = id
      · simp [hc, MemoryNodeStore.put]
      · simp [hc, MemoryNodeStore.put, Ne.symm hc]

theorem dense_put_maxNodes (s : DenseNodeStoreWriter) (id : Nat) (lat lon : ℚ) :
    ((s.put id lat lon).1).maxNodes = s.maxNodes := by
  unfold DenseNodeStoreWriter.put
  split <;> rfl

theorem dense_fold_maxNodes (calls : List PutCall) (s : DenseNodeStoreWriter) :
    (calls.foldl (fun s c => (s.put c.id c.lat c.lon).1) s).maxNodes = s.maxNodes := by
  induction calls generalizing s with
  | nil => rfl
  | cons c cs ih => rw [List.foldl_cons, ih, dense_put_maxNodes]

theorem dense_put_frame (s : DenseNodeStoreWriter) (id : Nat) (lat lon : ℚ)
    (b : Nat) (hb : b < id * 8 ∨ id * 8 + 8 ≤ b) :
    ((s.put id lat lon).1).mmap b = s.mmap b := by
  unfold DenseNodeStoreWriter.put NODE_SIZE
  split
  · rfl
  · dsimp only
    rw [if_neg (by omega), if_neg (by omega)]

theorem dense_put_slot (s : DenseNodeStoreWriter) (id : Nat) (lat lon : ℚ)
    (k : Nat) (hid : id < s.maxNodes) (hk : k < 8) :
    ((s.put id lat lon).1).mmap (id * 8 + k) = denseSlotByte ⟨id, lat, lon⟩ k := by
  unfold DenseNodeStoreWriter.put NODE_SIZE denseSlotByte
  rw [if_neg (by omega)]
  dsimp only
  by_cases h4 : k < 4
  · rw [if_pos ⟨by omega, by omega⟩]
    have h : id * 8 + k - id * 8 = k := by omega
    rw [h, if_pos h4]
  · rw [if_neg (by omega), if_pos ⟨by omega, by omega⟩]
    have h : id * 8 + k - (id * 8 + 4) = k - 4 := by omega
    rw [h, if_neg h4]

theorem dense_fold_mmap (calls : List PutCall) (s : DenseNodeStoreWriter)
    (id : Nat) (k : Nat) (hid : id < s.maxNodes) (hk : k < 8) :
    (calls.foldl (fun s c => (s.put c.id c.lat c.lon).1) s).mmap (id * 8 + k) =
      match lastCallFor calls id with
      | some c => denseSlotByte c k
      | none => s.mmap (id * 8 + k) := by
  induction calls generalizing s with
  | nil => rfl
  | cons c cs ih =>
    rw [List.foldl_cons, ih _ (by rw [dense_put_maxNodes]; exact hid),
      lastCallFor_cons]
    cases h : lastCallFor cs id with
    | some d => rfl
    | none =>
      by_cases hc : c.id = id
      · subst hc
        rw [if_pos rfl, dense_put_slot s c.id c.lat c.lon k hid hk]
      · rw [if_neg hc]
        by_cases hcm : c.id < s.maxNodes
        · exact dense_put_frame s c.id c.lat c.lon _ (by
            rcases Nat.lt_or_ge c.id id with h | h
            · right; omega
            · left; have : id < c.id := by omega
              omega)
        · unfold DenseNodeStoreWriter.put
          rw [if_pos (by omega)]

theorem fromLeBytes_zero : u32AsI32 (fromLeBytes 0 0 0 0) = 0 := by
  norm_num [fromLeBytes, u32AsI32]

theorem dense_run_get (maxNodes : Nat) (calls : List PutCall) (id : Nat)
    (hid : id < maxNodes) :
    (runDensePuts maxNodes calls).finalize.get id =
      some (match lastCallFor calls id with
        | some c => (unscale (toFixed c.lon), unscale (toFixed c.lat))
        | none => (0, 0)) := by
  unfold DenseNodeStoreReader.get DenseNodeStoreWriter.finalize NODE_SIZE
  dsimp only
  rw [if_neg (by
    rw [show (runDensePuts maxNodes calls).maxNodes = maxNodes from
      dense_fold_maxNodes calls _]
    omega)]
  have hb : ∀ k, k < 8 → (runDensePuts maxNodes calls).mmap (id * 8 + k) =
      match lastCallFor calls id with
      | some c => denseSlotByte c k
      | none => 0 := by
    intro k hk
    exact dense_fold_mmap calls (DenseNodeStoreWriter.new maxNodes) id k hid hk
  have h0 := hb 0 (by norm_num)
  have h1 := hb 1 (by norm_num)
  have h2 := hb 2 (by norm_num)
  have h3 := hb 3 (by norm_num)
  have h4 := hb 4 (by norm_num)
  have h5 := hb 5 (by norm_num)
  have h6 := hb 6 (by norm_num)
  have h7 := hb 7 (by norm_num)
  cases h : lastCallFor calls id with
  | none =>
    simp only [h] at h0 h1 h2 h3 h4 h5 h6 h7
    simp only [Nat.add_zero] at h0
    simp only [decode_coords, h0, h1, h2, h3, h4, h5, h6, h7]
    rw [fromLeBytes_zero]
    simp [unscale_zero]
  | some c =>
    simp only [h] at h0 h1 h2 h3 h4 h5 h6 h7
    simp only [Nat.add_zero] at h0
    simp only [decode_coords, h0, h1, h2, h3, h4, h5, h6, h7]
    have hlon := toFixed_range c.lon
    have hlat := toFixed_range c.lat
    have e0 : denseSlotByte c 0 = leByte (toFixed c.lon) 0 := rfl
    have e1 : denseSlotByte c 1 = leByte (toFixed c.lon) 1 := rfl
    have e2 : denseSlotByte c 2 = leByte (toFixed c.lon) 2 := rfl
    have e3 : denseSlotByte c 3 = leByte (toFixed c.lon) 3 := rfl
    have e4 : denseSlotByte c 4 = leByte (toFixed c.lat) 0 := rfl
    have e5 : denseSlotByte c 5 = leByte (toFixed c.lat) 1 := rfl
    have e6 : denseSlotByte c 6 = leByte (toFixed c.lat) 2 := rfl
    have e7 : denseSlotByte c 7 = leByte (toFixed c.lat) 3 := rfl
    rw [e0, e1, e2, e3, e4, e5, e6, e7,
      u32AsI32_leBytes _ hlon.1 hlon.2, u32AsI32_leBytes _ hlat.1 hlat.2]

/-! ### C6 and C10 — dense backend claims -/

theorem runDensePuts_maxNodes (maxNodes : Nat) (calls : List PutCall) :
    (runDensePuts maxNodes calls).maxNodes = maxNodes :=
  dense_fold_maxNodes calls (DenseNodeStoreWriter.new maxNodes)

/-- C6: dense `put(id, …)` fails iff `id ≥ max_nodes`; after finalize,
`get(id)` returns `None` iff `id ≥ max_nodes`; every `id < max_nodes` reads
`Some` value, which is `(0, 0)` for ids never written. -/
theorem C6_dense_capacity :
    (∀ (s : DenseNodeStoreWriter) (id : Nat) (lat lon : ℚ),
      (s.put id lat lon).2 = false ↔ s.maxNodes ≤ id) ∧
    (∀ (maxNodes : Nat) (calls : List PutCall) (id : Nat),
      (runDensePuts maxNodes calls).finalize.get id = none ↔ maxNodes ≤ id) ∧
    (∀ (maxNodes : Nat) (calls : List PutCall) (id : Nat), id < maxNodes →
      lastCallFor calls id = none →
      (runDensePuts maxNodes calls).finalize.get id = some (0, 0)) := by
  refine ⟨?_, ?_, ?_⟩
  · intro s id lat lon
    unfold DenseNodeStoreWriter.put
    by_cases hc : s.maxNodes ≤ id
    · rw [if_pos hc]
      simpa using hc
    · rw [if_neg hc]
      simpa using hc
  · intro maxNodes calls id
    by_cases hc : maxNodes ≤ id
    · unfold DenseNodeStoreReader.get DenseNodeStoreWriter.finalize
      dsimp only
      rw [runDensePuts_maxNodes, if_pos hc]
      simpa using hc
    · rw [dense_run_get maxNodes calls id (by omega)]
      simpa using hc
  · intro maxNodes calls id hid hnone
    rw [dense_run_get maxNodes calls id hid, hnone]

/-- Witness for C6: with capacity 100, `put(100, …)` fails, and an unwritten
in-range slot reads `(0, 0)`. -/
theorem C6_dense_capacity_witness :
    ((DenseNodeStoreWriter.new 100).put 100 0 0).2 = false ∧
    (runDensePuts 100 [⟨1, 2, 3⟩]).finalize.get 50 = some (0, 0) :=
  ⟨(C6_dense_capacity.1 (DenseNodeStoreWriter.new 100) 100 0 0).mpr
      (by norm_num [DenseNodeStoreWriter.new]),
    C6_dense_capacity.2.2 100 [⟨1, 2, 3⟩] 50 (by norm_num) rfl⟩

/-- C10: a successful dense `put(id, …)` modifies only the eight bytes at
offset `id * 8`; every other byte of the mmap is unchanged, and the value
subsequently read for any `id' ≠ id` is unchanged. -/
theorem C10_dense_put_frame (s : DenseNodeStoreWriter) (id : Nat) (lat lon : ℚ)
    (hid : id < s.maxNodes) :
    (s.put id lat lon).2 = true ∧
    (∀ b : Nat, b < id * 8 ∨ id * 8 + 8 ≤ b →
      ((s.put id lat lon).1).mmap b = s.mmap b) ∧
    (∀ id' : Nat, id' ≠ id →
      ((s.put id lat lon).1).finalize.get id' = s.finalize.get id') := by
  refine ⟨?_, ?_, ?_⟩
  · unfold DenseNodeStoreWriter.put
    rw [if_neg (by omega)]
  · intro b hb
    exact dense_put_frame s id lat lon b hb
  · intro id' hne
    unfold DenseNodeStoreReader.get DenseNodeStoreWriter.finalize NODE_SIZE
    dsimp only
    rw [dense_put_maxNodes]
    by_cases hc : s.maxNodes ≤ id'
    · rw [if_pos hc, if_pos hc]
    · rw [if_neg hc, if_neg hc]
      have hf : ∀ k : Nat, k < 8 →
          ((s.put id lat lon).1).mmap (id' * 8 + k) = s.mmap (id' * 8 + k) :=
        fun k hk => dense_put_frame s id lat lon _ (by omega)
      have h0 := hf 0 (by norm_num)
      have h1 := hf 1 (by norm_num)
      have h2 := hf 2 (by norm_num)
      have h3 := hf 3 (by norm_num)
      have h4 := hf 4 (by norm_num)
      have h5 := hf 5 (by norm_num)
      have h6 := hf 6 (by norm_num)
      have h7 := hf 7 (by norm_num)
      simp only [Nat.add_zero] at h0
      rw [h0, h1, h2, h3, h4, h5, h6, h7]

/-- Witness for C10: writing node 3 leaves node 1's stored value intact. -/
theorem C10_dense_put_frame_witness :
    3 < (runDensePuts 10 [⟨1, 1, 2⟩]).maxNodes ∧
    (((runDensePuts 10 [⟨1, 1, 2⟩]).put 3 5 6).1).finalize.get 1 =
      (runDensePuts 10 [⟨1, 1, 2⟩]).finalize.get 1 := by
  have hmax : (runDensePuts 10 [⟨1, 1, 2⟩]).maxNodes = 10 :=
    dense_fold_maxNodes _ _
  refine ⟨by rw [hmax]; norm_num, ?_⟩
  exact (C10_dense_put_frame (runDensePuts 10 [⟨1, 1, 2⟩]) 3 5 6
    (by rw [hmax]; norm_num)).2.2 1 (by norm_num)

theorem sparse_put_isSorted_false (s : SparseNodeStoreWriter) (id : Nat)
    (lat lon : ℚ) (h : s.isSorted = false) :
    ((s.put id lat lon).1).isSorted = false := by
  unfold SparseNodeStoreWriter.put
  dsimp only
  split
  · split
    · rfl
    · simpa using h
  · simpa using h

theorem sparse_fold_isSorted_false (calls : List PutCall)
    (s : SparseNodeStoreWriter) (h : s.isSorted = false) :
    (calls.foldl (fun s c => (s.put c.id c.lat c.lon).1) s).isSorted = false := by
  induction calls generalizing s with
  | nil => exact h
  | cons c cs ih =>
    rw [List.foldl_cons]
    exact ih _ (sparse_put_isSorted_false s c.id c.lat c.lon h)

theorem sparse_run_spec (calls : List PutCall) :
    (runSparsePuts calls).count = (runSparsePuts calls).entries.length ∧
    List.Pairwise (fun e1 e2 : SparseEntry => e1.id ≤ e2.id)
      (runSparsePuts calls).entries ∧
    ((runSparsePuts calls).lastId = none → calls = []) ∧
    (∀ m, (runSparsePuts calls).lastId = some m →
      m ∈ calls.map PutCall.id ∧ ∀ x ∈ calls.map PutCall.id, x ≤ m) ∧
    (∀ e ∈ (runSparsePuts calls).entries,
      ∃ m, (runSparsePuts calls).lastId = some m ∧ e.id ≤ m) ∧
    ((runSparsePuts calls).isSorted = true ↔
      List.Pairwise (· ≤ ·) (calls.map PutCall.id)) ∧
    ((runSparsePuts calls).isSorted = true →
      (runSparsePuts calls).entries =
        calls.map fun c => ⟨c.id, pack_coords c.lat c.lon⟩) := by
  induction calls using List.reverseRecOn with
  | nil =>
    refine ⟨rfl, by simp [runSparsePuts, SparseNodeStoreWriter.new],
      fun _ => rfl, ?_, ?_,
      by simp [runSparsePuts, SparseNodeStoreWriter.new],
      fun _ => by simp [runSparsePuts, SparseNodeStoreWriter.new]⟩
    · intro m hm
      simp [runSparsePuts, SparseNodeStoreWriter.new] at hm
    · intro e he
      simp [runSparsePuts, SparseNodeStoreWriter.new] at he
  | append_singleton cs c ih =>
    have hstep : runSparsePuts (cs ++ [c]) =
        ((runSparsePuts cs).put c.id c.lat c.lon).1 := by
      unfold runSparsePuts
      rw [List.foldl_append]
      rfl
    obtain ⟨ihcount, ihpw, ihnone, ihsome, ihentries, ihsorted, ihall⟩ := ih
    cases hl : (runSparsePuts cs).lastId with
    | none =>
      have hcs : cs = [] := ihnone hl
      subst hcs
      have hput : ((runSparsePuts []).put c.id c.lat c.lon).1 =
          ⟨[⟨c.id, pack_coords c.lat c.lon⟩], 1, some c.id, true⟩ := rfl
      rw [hstep, hput]
      refine ⟨rfl, by simp, by simp, ?_, ?_, by simp, by simp⟩
      · intro m hm
        dsimp only at hm
        injection hm with hm
        subst hm
        simp
      · intro e he
        simp only [List.mem_singleton] at he
        subst he
        exact ⟨c.id, rfl, le_refl _⟩
    | some m =>
      obtain ⟨hmmem, hmbound⟩ := ihsome m hl
      by_cases hlt : c.id < m
      · -- rejected put: entries and count unchanged, isSorted cleared
        have hput : ((runSparsePuts cs).put c.id c.lat c.lon).1 =
            ⟨(runSparsePuts cs).entries, (runSparsePuts cs).count,
              some m, false⟩ := by
          unfold SparseNodeStoreWriter.put
          rw [hl]
          dsimp only
          rw [if_pos hlt]
        rw [hstep, hput]
        refine ⟨ihcount, ihpw, by simp, ?_, ?_, ?_, by simp⟩
        · intro m' hm'
          dsimp only at hm'
          injection hm' with hm'
          subst hm'
          refine ⟨by rw [List.map_append, List.mem_append]; exact .inl hmmem, ?_⟩
          intro x hx
          rw [List.map_append, List.mem_append] at hx
          rcases hx with hx | hx
          · exact hmbound x hx
          · simp only [List.map_cons, List.map_nil, List.mem_singleton] at hx
            omega
        · intro e he
          dsimp only at he ⊢
          obtain ⟨m', hm', hle⟩ := ihentries e he
          rw [hl] at hm'
          injection hm' with hm'
          exact ⟨m, rfl, by omega⟩
        · dsimp only
          simp only [Bool.false_eq_true, false_iff]
          intro hpw
          rw [List.map_append, List.pairwise_append] at hpw
          have := hpw.2.2 m hmmem c.id (by simp)
          omega
      · -- accepted put: entry appended, lastId advanced
        have hput : ((runSparsePuts cs).put c.id c.lat c.lon).1 =
            ⟨(runSparsePuts cs).entries ++ [⟨c.id, pack_coords c.lat c.lon⟩],
              (runSparsePuts cs).count + 1, some c.id,
              (runSparsePuts cs).isSorted⟩ := by
          unfold SparseNodeStoreWriter.put
          rw [hl]
          dsimp only
          rw [if_neg hlt]
        have hbound : ∀ e ∈ (runSparsePuts cs).entries, e.id ≤ c.id := by
          intro e he
          obtain ⟨m', hm', hle⟩ := ihentries e he
          rw [hl] at hm'
          injection hm' with hm'
          omega
        rw [hstep, hput]
        refine ⟨by simp [ihcount], ?_, by simp, ?_, ?_, ?_, ?_⟩
        · dsimp only
          rw [List.pairwise_append]
          refine ⟨ihpw, by simp, ?_⟩
          intro a ha b hb
          simp only [List.mem_singleton] at hb
          subst hb
          exact hbound a ha
        · intro m' hm'
          dsimp only at hm'
          injection hm' with hm'
          subst hm'
          constructor
          · rw [List.map_append, List.mem_append]
            right
            simp
          · intro x hx
            rw [List.map_append, List.mem_append] at hx
            rcases hx with hx | hx
            · have := hmbound x hx
              omega
            · simp only [List.map_cons, List.map_nil, List.mem_singleton] at hx
              omega
        · intro e he
          dsimp only at he ⊢
          rw [List.mem_append] at he
          rcases he with he | he
          · exact ⟨c.id, rfl, by have := hbound e he; omega⟩
          · simp only [List.mem_singleton] at he
            subst he
            exact ⟨c.id, rfl, le_refl _⟩
        · dsimp only
          rw [ihsorted, List.map_append, List.pairwise_append]
          constructor
          · intro hpw
            refine ⟨hpw, by simp, ?_⟩
            intro a ha b hb
            simp only [List.map_cons, List.map_nil, List.mem_singleton] at hb
            subst hb
            have := hmbound a ha
            omega
          · intro hpw
            exact hpw.1
        · intro hs
          dsimp only at hs
          rw [List.map_append, ihall hs]
          simp

theorem sparseGetGo_ne_panicked (entries : List SparseEntry) (id : Nat) :
    ∀ (fuel low high : Nat), high ≤ entries.length →
      sparseGetGo entries id fuel low high ≠ .panicked := by
  intro fuel
  induction fuel with
  | zero =>
    intro low high _
    simp [sparseGetGo]
  | succ fuel ih =>
    intro low high hh
    simp only [sparseGetGo]
    by_cases hlh : low < high
    · rw [if_pos hlh]
      have hmid : low + (high - low) / 2 < entries.length := by omega
      rw [List.getElem?_eq_getElem hmid]
      dsimp only
      by_cases h1 : entries[low + (high - low) / 2].id < id
      · rw [if_pos h1]
        exact ih _ _ hh
      · rw [if_neg h1]
        by_cases h2 : id < entries[low + (high - low) / 2].id
        · rw [if_pos h2]
          exact ih _ _ (by omega)
        · rw [if_neg h2]
          simp
    · rw [if_neg hlh]
      simp

theorem sparseGetGo_found (entries : List SparseEntry) (id : Nat) :
    ∀ (fuel low high : Nat) (u v : ℚ),
      sparseGetGo entries id fuel low high = .found u v →
      ∃ e ∈ entries, e.id = id ∧ u = (unpack_coords e.packed).1 ∧
        v = (unpack_coords e.packed).2 := by
  intro fuel
  induction fuel with
  | zero =>
    intro low high u v h
    simp [sparseGetGo] at h
  | succ fuel ih =>
    intro low high u v h
    simp only [sparseGetGo] at h
    by_cases hlh : low < high
    · rw [if_pos hlh] at h
      cases hm : entries[low + (high - low) / 2]? with
      | none => rw [hm] at h; simp at h
      | some e =>
        rw [hm] at h
        dsimp only at h
        by_cases h1 : e.id < id
        · rw [if_pos h1] at h
          exact ih _ _ _ _ h
        · rw [if_neg h1] at h
          by_cases h2 : id < e.id
          · rw [if_pos h2] at h
            exact ih _ _ _ _ h
          · rw [if_neg h2] at h
            injection h with hu hv
            obtain ⟨hlt, hee⟩ := List.getElem?_eq_some_iff.mp hm
            exact ⟨e, hee ▸ List.getElem_mem hlt, by omega, hu.symm, hv.symm⟩
    · rw [if_neg hlh] at h
      simp at h

theorem sparseGetGo_notFound_of_not_mem (entries : List SparseEntry) (id : Nat)
    (hid : id ∉ entries.map SparseEntry.id) (fuel low high : Nat)
    (hh : high ≤ entries.length) :
    sparseGetGo entries id fuel low high = .notFound := by
  cases houtcome : sparseGetGo entries id fuel low high with
  | found u v =>
    obtain ⟨e, he, heid, _, _⟩ := sparseGetGo_found entries id fuel low high u v houtcome
    exact absurd (List.mem_map.mpr ⟨e, he, heid⟩) hid
  | notFound => rfl
  | panicked => exact absurd houtcome (sparseGetGo_ne_panicked entries id fuel low high hh)

theorem sparseGetGo_ne_notFound (entries : List SparseEntry) (id : Nat)
    (hsorted : List.Pairwise (fun e1 e2 : SparseEntry => e1.id < e2.id) entries) :
    ∀ (fuel low high : Nat), high ≤ entries.length → high - low ≤ fuel →
      (∃ j, low ≤ j ∧ j < high ∧ ∃ h : j < entries.length,
        entries[j].id = id) →
      sparseGetGo entries id fuel low high ≠ .notFound := by
  have hpw := List.pairwise_iff_getElem.mp hsorted
  intro fuel
  induction fuel with
  | zero =>
    intro low high _ hfuel ⟨j, hj1, hj2, _, _⟩
    omega
  | succ fuel ih =>
    intro low high hh hfuel ⟨j, hj1, hj2, hjlen, hjid⟩
    have hlh : low < high := by omega
    simp only [sparseGetGo]
    rw [if_pos hlh]
    have hmid : low + (high - low) / 2 < entries.length := by omega
    rw [List.getElem?_eq_getElem hmid]
    dsimp only
    by_cases h1 : entries[low + (high - low) / 2].id < id
    · rw [if_pos h1]
      refine ih (low + (high - low) / 2 + 1) high hh (by omega) ⟨j, ?_, hj2, hjlen, hjid⟩
      by_contra hcon
      push_neg at hcon
      rcases Nat.lt_or_ge j (low + (high - low) / 2) with hj | hj
      · have := hpw j (low + (high - low) / 2) hjlen hmid hj
        omega
      · have hje : j = low + (high - low) / 2 := by omega
        subst hje
        omega
    · rw [if_neg h1]
      by_cases h2 : id < entries[low + (high - low) / 2].id
      · rw [if_pos h2]
        refine ih low (low + (high - low) / 2) (by omega) (by omega)
          ⟨j, hj1, ?_, hjlen, hjid⟩
        by_contra hcon
        push_neg at hcon
        rcases Nat.lt_or_ge (low + (high - low) / 2) j with hj | hj
        · have := hpw (low + (high - low) / 2) j hmid hjlen hj
          omega
        · have hje : j = low + (high - low) / 2 := by omega
          subst hje
          omega
      · rw [if_neg h2]
        simp

theorem sparse_entry_unique (entries : List SparseEntry)
    (hsorted : List.Pairwise (fun e1 e2 : SparseEntry => e1.id < e2.id) entries)
    (e1 e2 : SparseEntry) (h1 : e1 ∈ entries) (h2 : e2 ∈ entries)
    (heq : e1.id = e2.id) : e1 = e2 := by
  have hpw := List.pairwise_iff_getElem.mp hsorted
  obtain ⟨i, hi, hie⟩ := List.mem_iff_getElem.mp h1
  obtain ⟨j, hj, hje⟩ := List.mem_iff_getElem.mp h2
  rcases Nat.lt_trichotomy i j with hij | hij | hij
  · have := hpw i j hi hj hij
    rw [hie, hje] at this
    omega
  · subst hij
    rw [← hie, ← hje]
  · have := hpw j i hj hi hij
    rw [hie, hje] at this
    omega

theorem sparse_finalize_some (calls : List PutCall) (r : SparseNodeStoreReader)
    (h : (runSparsePuts calls).finalize = some r) :
    r.entries = (runSparsePuts calls).entries ∧
    r.count = r.entries.length ∧
    (runSparsePuts calls).isSorted = true := by
  have hcount := (sparse_run_spec calls).1
  unfold SparseNodeStoreWriter.finalize at h
  by_cases h1 : (runSparsePuts calls).isSorted = false
  · rw [if_pos h1] at h
    exact absurd h (by simp)
  · rw [if_neg h1, if_neg (by omega)] at h
    injection h with h
    subst h
    refine ⟨rfl, ?_, ?_⟩
    · show (runSparsePuts calls).count = (runSparsePuts calls).entries.length
      exact hcount
    · cases hb : (runSparsePuts calls).isSorted
      · exact absurd hb h1
      · rfl

theorem sparse_finalize_none_of_unsorted (s : SparseNodeStoreWriter)
    (h : s.isSorted = false) : s.finalize = none := by
  unfold SparseNodeStoreWriter.finalize
  rw [if_pos h]

theorem sparse_put_failure (s : SparseNodeStoreWriter) (id : Nat) (lat lon : ℚ)
    (hfail : (s.put id lat lon).2 = false) :
    (s.put id lat lon).1 = ⟨s.entries, s.count, s.lastId, false⟩ := by
  unfold SparseNodeStoreWriter.put at hfail ⊢
  cases hl : s.lastId with
  | none =>
    simp [hl] at hfail
  | some m =>
    simp only [hl] at hfail ⊢
    by_cases hc : id < m
    · rw [if_pos hc]
    · rw [if_neg hc] at hfail
      exact absurd hfail (by simp)

/-- C5: the sparse finalize fails exactly when the sequence of put ids is not
monotonically non-decreasing, i.e. some call's id was strictly smaller than
the id of the previous call (I/O always succeeds in the model). -/
theorem C5_sparse_finalize_iff (calls : List PutCall) :
    (runSparsePuts calls).finalize = none ↔
      ¬ List.Chain' (· ≤ ·) (calls.map PutCall.id) := by
  have hcount := (sparse_run_spec calls).1
  have hiff := (sparse_run_spec calls).2.2.2.2.2.1
  rw [List.chain'_iff_pairwise]
  unfold SparseNodeStoreWriter.finalize
  constructor
  · intro h hpw
    have hs : (runSparsePuts calls).isSorted = true := hiff.mpr hpw
    rw [if_neg (by simp [hs]), if_neg (by omega)] at h
    exact absurd h (by simp)
  · intro hnpw
    have hs : (runSparsePuts calls).isSorted = false := by
      cases hb : (runSparsePuts calls).isSorted
      · rfl
      · exact absurd (hiff.mp hb) hnpw
    rw [if_pos hs]

/-- C9: a sparse put rejected for an out-of-order id appends nothing and
leaves the count unchanged, but permanently clears the sorted flag, so every
subsequent finalize fails; the stored entries themselves remain sorted. -/
theorem C9_sparse_failed_put (calls : List PutCall) (id : Nat) (lat lon : ℚ)
    (hfail : ((runSparsePuts calls).put id lat lon).2 = false) :
    (((runSparsePuts calls).put id lat lon).1).entries =
      (runSparsePuts calls).entries ∧
    (((runSparsePuts calls).put id lat lon).1).count =
      (runSparsePuts calls).count ∧
    (((runSparsePuts calls).put id lat lon).1).isSorted = false ∧
    (∀ rest : List PutCall,
      (rest.foldl (fun w c => (w.put c.id c.lat c.lon).1)
        ((runSparsePuts calls).put id lat lon).1).finalize = none) ∧
    List.Pairwise (fun e1 e2 : SparseEntry => e1.id ≤ e2.id)
      (((runSparsePuts calls).put id lat lon).1).entries := by
  have hput := sparse_put_failure (runSparsePuts calls) id lat lon hfail
  rw [hput]
  refine ⟨rfl, rfl, rfl, ?_, (sparse_run_spec calls).2.1⟩
  intro rest
  exact sparse_finalize_none_of_unsorted _
    (sparse_fold_isSorted_false rest _ rfl)

/-- Witness for C9: after `put(5)`, `put(3)` fails; a later in-order `put(7)`
does not restore finalizability. -/
theorem C9_sparse_failed_put_witness :
    ((runSparsePuts [⟨5, 0, 0⟩]).put 3 0 0).2 = false ∧
    (([⟨7, 0, 0⟩] : List PutCall).foldl (fun w c => (w.put c.id c.lat c.lon).1)
      ((runSparsePuts [⟨5, 0, 0⟩]).put 3 0 0).1).finalize = none :=
  ⟨rfl, (C9_sparse_failed_put [⟨5, 0, 0⟩] 3 0 0 rfl).2.2.2.1 [⟨7, 0, 0⟩]⟩

theorem runMemoryPuts_nodes (calls : List PutCall) (id : Nat) :
    (runMemoryPuts calls).nodes id =
      match lastCallFor calls id with
      | some c => some (toFixed c.lon, toFixed c.lat)
      | none => none := by
  unfold runMemoryPuts
  rw [memory_fold_nodes]
  cases lastCallFor calls id <;> rfl

theorem lastCallFor_eq_none_of_not_mem (calls : List PutCall) (id : Nat)
    (h : id ∉ calls.map PutCall.id) : lastCallFor calls id = none := by
  have hf : List.filter (fun c => decide (c.id = id)) calls = [] := by
    rw [List.filter_eq_nil_iff]
    intro c hc
    simp only [decide_eq_true_eq]
    intro he
    exact h (List.mem_map.mpr ⟨c, hc, he⟩)
  unfold lastCallFor
  rw [hf]
  rfl

theorem dense_get_none_iff (maxNodes : Nat) (calls : List PutCall) (id : Nat) :
    (runDensePuts maxNodes calls).finalize.get id = none ↔ maxNodes ≤ id := by
  by_cases hc : maxNodes ≤ id
  · unfold DenseNodeStoreReader.get DenseNodeStoreWriter.finalize
    dsimp only
    rw [runDensePuts_maxNodes, if_pos hc]
    simpa using hc
  · rw [dense_run_get maxNodes calls id (by omega)]
    simpa using hc

/-- C1 counterexample: the dense backend with capacity 100 and no puts at all
answers `get(50)` with `Some (0, 0)`, not `None`, although id 50 was never
passed to put. -/
theorem C1_counterexample :
    (DenseNodeStoreWriter.new 100).finalize.get 50 = some (0, 0) ∧
    (DenseNodeStoreWriter.new 100).finalize.get 50 ≠ none := by
  have h : (runDensePuts 100 []).finalize.get 50 = some (0, 0) :=
    dense_run_get 100 [] 50 (by norm_num)
  exact ⟨h, by rw [show (DenseNodeStoreWriter.new 100).finalize.get 50 =
    (runDensePuts 100 []).finalize.get 50 from rfl, h]; simp⟩

/-- C1 amended: the sparse and memory readers return `None` (`notFound`) for
every id never passed to put, and the sparse binary search never panics; the
dense reader returns `None` exactly for ids at or beyond its capacity
(in-capacity unwritten slots read as `(0, 0)`). -/
theorem C1_get_missing_ids :
    (∀ (calls : List PutCall) (r : SparseNodeStoreReader),
      (runSparsePuts calls).finalize = some r →
      (∀ id, id ∉ calls.map PutCall.id → r.get id = .notFound) ∧
      (∀ id, r.get id ≠ .panicked)) ∧
    (∀ (calls : List PutCall) (id : Nat), id ∉ calls.map PutCall.id →
      (runMemoryPuts calls).get id = none) ∧
    (∀ (maxNodes : Nat) (calls : List PutCall) (id : Nat),
      (runDensePuts maxNodes calls).finalize.get id = none ↔ maxNodes ≤ id) := by
  refine ⟨?_, ?_, dense_get_none_iff⟩
  · intro calls r hfin
    obtain ⟨hre, hrc, hsorted⟩ := sparse_finalize_some calls r hfin
    have hentries := (sparse_run_spec calls).2.2.2.2.2.2 hsorted
    constructor
    · intro id hid
      unfold SparseNodeStoreReader.get
      refine sparseGetGo_notFound_of_not_mem r.entries id ?_ r.count 0 r.count
        (by omega)
      rw [hre, hentries, List.map_map]
      simpa [Function.comp] using hid
    · intro id
      unfold SparseNodeStoreReader.get
      exact sparseGetGo_ne_panicked r.entries id r.count 0 r.count (by omega)
  · intro calls id hid
    unfold MemoryNodeStore.get
    rw [runMemoryPuts_nodes, lastCallFor_eq_none_of_not_mem calls id hid]
    rfl

/-- Witness for C1: id 2 was never put; the sparse and memory readers answer
`notFound`/`None`, and dense `get(11)` beyond capacity 10 is `None`. -/
theorem C1_get_missing_ids_witness :
    ((runSparsePuts [⟨1, 0, 0⟩, ⟨3, 0, 0⟩]).finalize.map fun r => r.get 2) =
      some .notFound ∧
    (runMemoryPuts [⟨1, 0, 0⟩]).get 2 = none ∧
    ((runDensePuts 10 [⟨1, 0, 0⟩]).finalize.get 11 = none ↔ 10 ≤ 11) := by
  refine ⟨?_, C1_get_missing_ids.2.1 [⟨1, 0, 0⟩] 2 (by simp),
    C1_get_missing_ids.2.2 10 [⟨1, 0, 0⟩] 11⟩
  obtain ⟨r, hr⟩ := Option.isSome_iff_exists.mp
    (show (runSparsePuts [⟨1, 0, 0⟩, ⟨3, 0, 0⟩]).finalize.isSome from rfl)
  rw [hr, Option.map_some']
  exact congrArg some ((C1_get_missing_ids.1 _ r hr).1 2 (by simp))

theorem sparse_reader_get_found (calls : List PutCall) (r : SparseNodeStoreReader)
    (hnodup : (calls.map PutCall.id).Nodup)
    (hfin : (runSparsePuts calls).finalize = some r)
    (c : PutCall) (hc : c ∈ calls) :
    r.get c.id = .found (unscale (toFixed c.lon)) (unscale (toFixed c.lat)) := by
  obtain ⟨hre, hrc, hsorted⟩ := sparse_finalize_some calls r hfin
  have hentries := (sparse_run_spec calls).2.2.2.2.2.2 hsorted
  have hpwle := (sparse_run_spec calls).2.1
  have hre2 : r.entries =
      calls.map fun c => ⟨c.id, pack_coords c.lat c.lon⟩ := by
    rw [hre, hentries]
  have hlt : List.Pairwise (fun e1 e2 : SparseEntry => e1.id < e2.id)
      r.entries := by
    rw [hre2, List.pairwise_map]
    have hle : List.Pairwise (fun a b : PutCall => a.id ≤ b.id) calls := by
      have h := hpwle
      rw [hentries, List.pairwise_map] at h
      exact h
    have hne : List.Pairwise (fun a b : PutCall => a.id ≠ b.id) calls :=
      List.pairwise_map.mp hnodup
    exact (hle.and hne).imp fun h => lt_of_le_of_ne h.1 h.2
  have hmem : (⟨c.id, pack_coords c.lat c.lon⟩ : SparseEntry) ∈ r.entries := by
    rw [hre2]
    exact List.mem_map.mpr ⟨c, hc, rfl⟩
  obtain ⟨j, hj, hje⟩ := List.mem_iff_getElem.mp hmem
  have hnnf : r.get c.id ≠ .notFound := by
    unfold SparseNodeStoreReader.get
    exact sparseGetGo_ne_notFound r.entries c.id hlt r.count 0 r.count
      (by omega) (by omega) ⟨j, by omega, by omega, hj, by rw [hje]⟩
  have hnp : r.get c.id ≠ .panicked := by
    unfold SparseNodeStoreReader.get
    exact sparseGetGo_ne_panicked r.entries c.id r.count 0 r.count (by omega)
  cases hout : r.get c.id with
  | notFound => exact absurd hout hnnf
  | panicked => exact absurd hout hnp
  | found u v =>
    have hsrc := sparseGetGo_found r.entries c.id r.count 0 r.count u v (by
      unfold SparseNodeStoreReader.get at hout
      exact hout)
    obtain ⟨e', he'm, he'id, hu, hv⟩ := hsrc
    have he'eq : e' = ⟨c.id, pack_coords c.lat c.lon⟩ :=
      sparse_entry_unique r.entries hlt e' _ he'm hmem (by rw [he'id])
    rw [hu, hv, he'eq]
    simp [unpack_pack]

theorem unscale_toFixed_two : unscale (toFixed 2) = 2 := by
  rw [toFixed_eq_of_scaled_int 2 20000000 (by norm_num [SCALE_FACTOR])
    (by norm_num [I32_MIN]) (by norm_num [I32_MAX])]
  norm_num [unscale, SCALE_FACTOR]

/-- C2 counterexample: (a) with duplicate ids the sparse reader returns the
middle of three puts for id 5 — value 2, not the last value 3, which is more
than 1e-7 away; (b) a successful memory put of lon = 300 (accepted, outside
±180°) reads back saturated at ≈ 214.748, violating the 1e-7 bound. -/
theorem C2_counterexample :
    ((runSparsePuts [⟨5, 1, 1⟩, ⟨5, 2, 2⟩, ⟨5, 3, 3⟩]).finalize.map
      fun r => r.get 5) = some (.found 2 2) ∧
    ¬ |(2 : ℚ) - 3| < 1 / 10000000 ∧
    (runMemoryPuts [⟨1, 0, 300⟩]).get 1 = some (unscale I32_MAX, 0) ∧
    ¬ |unscale I32_MAX - 300| < 1 / 10000000 := by
  have h300 : toFixed 300 = I32_MAX :=
    toFixed_sat_max 300 3000000000 (by norm_num [SCALE_FACTOR])
      (by norm_num [I32_MAX])
  have h0 : toFixed 0 = 0 :=
    toFixed_eq_of_scaled_int 0 0 (by norm_num [SCALE_FACTOR])
      (by norm_num [I32_MIN]) (by norm_num [I32_MAX])
  refine ⟨?_, by norm_num, ?_, ?_⟩
  · obtain ⟨r, hr⟩ := Option.isSome_iff_exists.mp
      (show (runSparsePuts [⟨5, 1, 1⟩, ⟨5, 2, 2⟩, ⟨5, 3, 3⟩]).finalize.isSome
        from rfl)
    rw [hr, Option.map_some']
    obtain ⟨hre, hrc, hsorted⟩ :=
      sparse_finalize_some [⟨5, 1, 1⟩, ⟨5, 2, 2⟩, ⟨5, 3, 3⟩] r hr
    have hentries := (sparse_run_spec [⟨5, 1, 1⟩, ⟨5, 2, 2⟩, ⟨5, 3, 3⟩]).2.2.2.2.2.2
      hsorted
    have hre2 : r.entries = [⟨5, pack_coords 1 1⟩, ⟨5, pack_coords 2 2⟩,
        ⟨5, pack_coords 3 3⟩] := by
      rw [hre, hentries]
      rfl
    have hcount : r.count = 3 := by
      rw [hrc, hre2]
      rfl
    unfold SparseNodeStoreReader.get
    rw [hre2, hcount]
    have hnum : (0 : Nat) + (3 - 0) / 2 = 1 := by norm_num
    simp only [sparseGetGo, hnum]
    norm_num
    rw [unpack_pack]
    simp [unscale_toFixed_two]
  · unfold MemoryNodeStore.get
    rw [runMemoryPuts_nodes]
    have hlast : lastCallFor [⟨1, 0, 300⟩] 1 = some ⟨1, 0, 300⟩ := rfl
    rw [hlast]
    simp only [Option.map_some']
    rw [h300, h0, unscale_zero]
  · rw [abs_of_neg (by norm_num [unscale, I32_MAX, SCALE_FACTOR])]
    norm_num [unscale, I32_MAX, SCALE_FACTOR]

/-- C2 amended: for coordinates whose scaled value fits `i32` (in particular
the ±180° range), `get` after finalize returns the last successful put's
value within 1e-7 per axis for the memory and dense backends; the sparse
backend satisfies the same provided no id is put more than once (with
duplicate ids its binary search may return any of the duplicates). -/
theorem C2_last_put_roundtrip :
    (∀ (calls : List PutCall) (id : Nat) (c : PutCall),
      lastCallFor calls id = some c → fitsI32 c.lat → fitsI32 c.lon →
      (runMemoryPuts calls).get id =
        some (unscale (toFixed c.lon), unscale (toFixed c.lat)) ∧
      |c.lon - unscale (toFixed c.lon)| < 1 / 10000000 ∧
      |c.lat - unscale (toFixed c.lat)| < 1 / 10000000) ∧
    (∀ (maxNodes : Nat) (calls : List PutCall) (id : Nat) (c : PutCall),
      id < maxNodes → lastCallFor calls id = some c →
      fitsI32 c.lat → fitsI32 c.lon →
      (runDensePuts maxNodes calls).finalize.get id =
        some (unscale (toFixed c.lon), unscale (toFixed c.lat)) ∧
      |c.lon - unscale (toFixed c.lon)| < 1 / 10000000 ∧
      |c.lat - unscale (toFixed c.lat)| < 1 / 10000000) ∧
    (∀ (calls : List PutCall) (r : SparseNodeStoreReader),
      (calls.map PutCall.id).Nodup →
      (runSparsePuts calls).finalize = some r →
      ∀ c ∈ calls, fitsI32 c.lat → fitsI32 c.lon →
      r.get c.id = .found (unscale (toFixed c.lon)) (unscale (toFixed c.lat)) ∧
      |c.lon - unscale (toFixed c.lon)| < 1 / 10000000 ∧
      |c.lat - unscale (toFixed c.lat)| < 1 / 10000000) := by
  refine ⟨?_, ?_, ?_⟩
  · intro calls id c hlast hlat hlon
    refine ⟨?_, unscale_toFixed_close c.lon hlon, unscale_toFixed_close c.lat hlat⟩
    unfold MemoryNodeStore.get
    rw [runMemoryPuts_nodes, hlast]
    rfl
  · intro maxNodes calls id c hid hlast hlat hlon
    refine ⟨?_, unscale_toFixed_close c.lon hlon, unscale_toFixed_close c.lat hlat⟩
    rw [dense_run_get maxNodes calls id hid, hlast]
  · intro calls r hnodup hfin c hc hlat hlon
    exact ⟨sparse_reader_get_found calls r hnodup hfin c hc,
      unscale_toFixed_close c.lon hlon, unscale_toFixed_close c.lat hlat⟩

/-- Witness for C2: a single put `(id 1, lat 2, lon 3)` on each backend reads
back within 1e-7 (here exactly). -/
theorem C2_last_put_roundtrip_witness :
    (runMemoryPuts [⟨1, 2, 3⟩]).get 1 =
      some (unscale (toFixed 3), unscale (toFixed 2)) ∧
    (runDensePuts 10 [⟨1, 2, 3⟩]).finalize.get 1 =
      some (unscale (toFixed 3), unscale (toFixed 2)) ∧
    ((runSparsePuts [⟨1, 2, 3⟩]).finalize.map fun r => r.get 1) =
      some (.found (unscale (toFixed 3)) (unscale (toFixed 2))) ∧
    |(3 : ℚ) - unscale (toFixed 3)| < 1 / 10000000 ∧
    |(2 : ℚ) - unscale (toFixed 2)| < 1 / 10000000 := by
  have hlat : fitsI32 ((⟨1, 2, 3⟩ : PutCall).lat) :=
    fitsI32_of_scaled_int 2 20000000 (by norm_num [SCALE_FACTOR])
      (by norm_num [I32_MIN]) (by norm_num [I32_MAX])
  have hlon : fitsI32 ((⟨1, 2, 3⟩ : PutCall).lon) :=
    fitsI32_of_scaled_int 3 30000000 (by norm_num [SCALE_FACTOR])
      (by norm_num [I32_MIN]) (by norm_num [I32_MAX])
  have hlast : lastCallFor [⟨1, 2, 3⟩] 1 = some ⟨1, 2, 3⟩ := rfl
  obtain ⟨hm, hbl, hbt⟩ :=
    C2_last_put_roundtrip.1 [⟨1, 2, 3⟩] 1 ⟨1, 2, 3⟩ hlast hlat hlon
  obtain ⟨hd, _, _⟩ :=
    C2_last_put_roundtrip.2.1 10 [⟨1, 2, 3⟩] 1 ⟨1, 2, 3⟩ (by norm_num)
      hlast hlat hlon
  obtain ⟨r, hr⟩ := Option.isSome_iff_exists.mp
    (show (runSparsePuts [⟨1, 2, 3⟩]).finalize.isSome from rfl)
  obtain ⟨hs, _, _⟩ :=
    C2_last_put_roundtrip.2.2 [⟨1, 2, 3⟩] r (by simp) hr ⟨1, 2, 3⟩ (by simp)
      hlat hlon
  refine ⟨hm, hd, ?_, hbl, hbt⟩
  rw [hr, Option.map_some']
  exact congrArg some hs

/-- C3 counterexample: `put` accepts out-of-range coordinates on every
backend — lon = 300 lies outside the ±180° fixed-point range, yet each put
succeeds instead of returning an error as the claim requires. -/
theorem C3_counterexample :
    (MemoryNodeStore.new.put 1 0 300).2 = true ∧
    (SparseNodeStoreWriter.new.put 1 0 300).2 = true ∧
    ((DenseNodeStoreWriter.new 10).put 1 0 300).2 = true := by
  refine ⟨rfl, rfl, ?_⟩
  unfold DenseNodeStoreWriter.put DenseNodeStoreWriter.new
  rw [if_neg (by norm_num)]

/-- C3 amended: `put` performs no coordinate validation: the memory backend
always succeeds, the sparse backend succeeds iff the id does not regress, and
the dense backend succeeds iff `id < max_nodes` — in each case independently
of lat/lon; coordinates whose scaled value overflows `i32` are stored
saturated at the `i32` bounds rather than rejected. -/
theorem C3_put_no_coordinate_validation :
    (∀ (s : MemoryNodeStore) (id : Nat) (lat lon : ℚ),
      (s.put id lat lon).2 = true) ∧
    (∀ (s : SparseNodeStoreWriter) (id : Nat) (lat lon : ℚ),
      (s.put id lat lon).2 =
        match s.lastId with
        | some last => !decide (id < last)
        | none => true) ∧
    (∀ (s : DenseNodeStoreWriter) (id : Nat) (lat lon : ℚ),
      (s.put id lat lon).2 = decide (id < s.maxNodes)) ∧
    (∀ (q : ℚ) (n : Int), q * SCALE_FACTOR = (n : ℚ) → I32_MAX < n →
      toFixed q = I32_MAX) ∧
    (∀ (q : ℚ) (n : Int), q * SCALE_FACTOR = (n : ℚ) → n < I32_MIN →
      toFixed q = I32_MIN) := by
  refine ⟨fun _ _ _ _ => rfl, ?_, ?_, toFixed_sat_max, toFixed_sat_min⟩
  · intro s id lat lon
    unfold SparseNodeStoreWriter.put
    cases hl : s.lastId with
    | none => rfl
    | some m =>
      dsimp only
      by_cases hc : id < m
      · rw [if_pos hc]
        simp [hc]
      · rw [if_neg hc]
        simp [hc]
  · intro s id lat lon
    unfold DenseNodeStoreWriter.put
    by_cases hc : s.maxNodes ≤ id
    · rw [if_pos hc]
      exact (decide_eq_false (by omega)).symm
    · rw [if_neg hc]
      exact (decide_eq_true (by omega)).symm

/-- Witness for C3: lon = 300 scales to 3·10⁹ > `I32_MAX`, and `toFixed`
saturates to `I32_MAX` instead of any error. -/
theorem C3_put_no_coordinate_validation_witness :
    (300 : ℚ) * SCALE_FACTOR = ((3000000000 : Int) : ℚ) ∧
    toFixed 300 = I32_MAX :=
  ⟨by norm_num [SCALE_FACTOR],
    C3_put_no_coordinate_validation.2.2.2.1 300 3000000000
      (by norm_num [SCALE_FACTOR]) (by norm_num [I32_MAX])⟩
